import Mathlib

/-!
# Verification of the wiki-agent chat client

A shallow embedding of the client-side logic of the chat application
(`ChatApp` in the frontend script): the citation highlighter
`addMessageWithCitations`, the `sendMessage` request/response driver with
its session tracking, and the request-body serialization.

JavaScript strings are modelled as `List Char`; JavaScript numbers
appearing in citation spans are modelled as `Int`.
-/

namespace WikiAgent

/-- JavaScript strings, modelled as lists of characters. -/
abbrev JStr := List Char

/-- A citation span: a half-open character range into the answer text.
The source field is named `end`; that is a Lean keyword, so it is called
`stop` here. -/
structure Span where
  start : Int
  stop : Int
deriving DecidableEq

/-- A citation as delivered to `addMessageWithCitations`: a source document
identifier, an excerpt, and an optional span into the answer text. -/
structure Citation where
  source : JStr
  content : JStr
  span : Option Span
deriving DecidableEq

/-- The comparator passed to `Array.prototype.sort`:
`if (!a.span || !b.span) return 0; return b.span.start - a.span.start`. -/
def compareCitations (a b : Citation) : Int :=
  match a.span, b.span with
  | none, _ => 0
  | some _, none => 0
  | some sa, some sb => sb.start - sa.start

/-- The boolean "a may come before b" relation induced by the comparator:
the sorted output of a stable comparison sort satisfies `Pairwise citLE`
whenever the comparator is consistent. -/
def citLE (a b : Citation) : Bool :=
  decide (compareCitations a b ≤ 0)

/-- `[...citations].sort((a, b) => ...)`: JavaScript's `sort` is required to
be stable, modelled by the stable `List.mergeSort`. -/
def sortCitations (cits : List Citation) : List Citation :=
  cits.mergeSort citLE

/-- Fuel-indexed version of `List.merge`, used to evaluate the sort on
concrete inputs (`List.merge` is defined by well-founded recursion and does
not reduce inside the kernel). -/
def mergeFuel (le : α → α → Bool) : Nat → List α → List α → List α
  | 0, xs, ys => xs ++ ys
  | _ + 1, [], ys => ys
  | _ + 1, x :: xs, [] => x :: xs
  | f + 1, x :: xs, y :: ys =>
    if le x y then x :: mergeFuel le f xs (y :: ys)
    else y :: mergeFuel le f (x :: xs) ys

/-- Fuel-indexed version of `List.mergeSort` with the same contiguous-halves
splitting, used to evaluate the sort on concrete inputs. -/
def mergeSortFuel (le : α → α → Bool) : Nat → List α → List α
  | 0, l => l
  | f + 1, l =>
    match l with
    | [] => []
    | [a] => [a]
    | a :: b :: xs =>
      let n := xs.length + 2
      mergeFuel le n
        (mergeSortFuel le f ((a :: b :: xs).take ((n + 1) / 2)))
        (mergeSortFuel le f ((a :: b :: xs).drop ((n + 1) / 2)))

/-- `String.prototype.split(sep)` for a single-character separator. -/
def splitOnChar (sep : Char) : JStr → List JStr
  | [] => [[]]
  | c :: rest =>
    match splitOnChar sep rest with
    | [] => if c = sep then [[], []] else [[c]]
    | h :: t => if c = sep then [] :: h :: t else (c :: h) :: t

/-- `citation.source.split('/').pop()`: the final path component. -/
def basename (src : JStr) : JStr :=
  ((splitOnChar '/' src).getLast?).getD []

/-- Decimal rendering of a number interpolated into a template literal. -/
def natStr (n : Nat) : JStr :=
  (Nat.repr n).data

/-- The opening wrapper inserted before a highlighted span:
`<span class="highlighted-text" data-citation-id="${index}">`. -/
def mkOpenTag (idx : Nat) : JStr :=
  "<span class=\"highlighted-text\" data-citation-id=\"".data ++ natStr idx ++ "\">".data

/-- The tooltip text:
`Source: ${sourceFile}<br>Excerpt: ${citation.content.substring(0, 100)}...`. -/
def tooltipContent (c : Citation) : JStr :=
  "Source: ".data ++ basename c.source ++ "<br>Excerpt: ".data ++
    c.content.take 100 ++ "...".data

/-- The tooltip element plus the two closing tags inserted after a
highlighted span:
`<span class="citation-tooltip">${tooltipContent}</span></span>`. -/
def mkTooltip (c : Citation) : JStr :=
  "<span class=\"citation-tooltip\">".data ++ tooltipContent c ++ "</span></span>".data

/-- One iteration of the `sortedCitations.forEach((citation, index) => ...)`
splicing loop.  Guard from the source:
`start >= 0 && end > start && end <= processedContent.length`.
Returns the updated `processedContent` together with the `highlighted`
substring when a splice was performed. -/
def spliceStep (pc : JStr) (idx : Nat) (c : Citation) : JStr × Option JStr :=
  match c.span with
  | none => (pc, none)
  | some sp =>
    if 0 ≤ sp.start ∧ sp.start < sp.stop ∧ sp.stop ≤ (pc.length : Int) then
      let s := sp.start.toNat
      let e := sp.stop.toNat
      let before := pc.take s
      let highlighted := (pc.take e).drop s
      let after := pc.drop e
      (before ++ mkOpenTag idx ++ highlighted ++ mkTooltip c ++ after, some highlighted)
    else (pc, none)

/-- The whole `forEach` loop over the sorted citations, starting at index `i`.
Besides the final `processedContent` it returns, for each splice performed,
the triple (index in the sorted array, the citation, the `highlighted`
substring that was wrapped). -/
def processCitations (pc : JStr) (i : Nat) : List Citation → JStr × List (Nat × Citation × JStr)
  | [] => (pc, [])
  | c :: rest =>
    match spliceStep pc i c with
    | (pc', rec?) =>
      match processCitations pc' (i + 1) rest with
      | (pcf, recs) =>
        match rec? with
        | some h => (pcf, (i, c, h) :: recs)
        | none => (pcf, recs)

/-- The final `processedContent` string assigned to `contentDiv.innerHTML`. -/
def processedContent (content : JStr) (cits : List Citation) : JStr :=
  (processCitations content 0 (sortCitations cits)).1

/-- The record of splices performed while producing `processedContent`. -/
def spliceRecords (content : JStr) (cits : List Citation) : List (Nat × Citation × JStr) :=
  (processCitations content 0 (sortCitations cits)).2

/-- The span start values of the spliced citations, in splice order. -/
def spliceStarts (content : JStr) (cits : List Citation) : List Int :=
  (spliceRecords content cits).filterMap (fun r => (r.2.1.span).map Span.start)

/-- `<strong>Sources:</strong><br>`, the initial `innerHTML` of the
citations container. -/
def footerHeader : JStr :=
  "<strong>Sources:</strong><br>".data

/-- One footer line: `[${index + 1}] ${sourceFile}<br>`. -/
def footerEntry (n : Nat) (c : Citation) : JStr :=
  "[".data ++ natStr n ++ "] ".data ++ basename c.source ++ "<br>".data

/-- The `citations.forEach((citation, index) => citationsContainer.innerHTML += ...)`
accumulation over the citations in their original order. -/
def footerStr (cits : List Citation) : JStr :=
  cits.enum.foldl (fun acc p => acc ++ footerEntry (p.1 + 1) p.2) footerHeader

/-- The rendered bot message: the `contentDiv` HTML and, when citations are
present, the citations container appended after it. -/
structure RenderedMessage where
  html : JStr
  footer : Option JStr
deriving DecidableEq

/-- `addMessageWithCitations(content, citations)`: with a non-empty citations
list the text is spliced and the sources footer is appended; otherwise the
text is used verbatim with no footer. -/
def addMessageWithCitations (content : JStr) (cits : List Citation) : RenderedMessage :=
  if cits.length > 0 then
    { html := processedContent content cits, footer := some (footerStr cits) }
  else
    { html := content, footer := none }

/-! ## Instrumented highlighter

`processedContent` only ever inserts markup into the current string; to
reason about "stripping all inserted markup" we rerun the same splices over
a segmented representation which tags every character as original answer
text (`true`) or inserted markup (`false`).  The flattened segments are
proved equal to the string the source code produces. -/

/-- A segment of the rendered string: `true` marks original answer text,
`false` marks markup inserted by the highlighter. -/
abbrev Seg := Bool × JStr

/-- The rendered string represented by the segments. -/
def flattenSegs (segs : List Seg) : JStr :=
  (segs.map Prod.snd).flatten

/-- The answer-text characters remaining after all inserted markup is
stripped from the rendered string. -/
def textOf (segs : List Seg) : JStr :=
  ((segs.filter Prod.fst).map Prod.snd).flatten

/-- Insert a markup string at flat position `pos` of the segmented string. -/
def insertMarkup : List Seg → Nat → JStr → List Seg
  | [], _, m => [(false, m)]
  | (b, cs) :: rest, pos, m =>
    if pos ≤ cs.length then
      (b, cs.take pos) :: (false, m) :: (b, cs.drop pos) :: rest
    else
      (b, cs) :: insertMarkup rest (pos - cs.length) m

/-- `spliceStep` on the segmented string: the same guard, and the same two
markup insertions (the opening tag at `start`, the tooltip and closing tags
at `end`). -/
def spliceStepSegs (segs : List Seg) (idx : Nat) (c : Citation) : List Seg :=
  match c.span with
  | none => segs
  | some sp =>
    if 0 ≤ sp.start ∧ sp.start < sp.stop ∧ sp.stop ≤ ((flattenSegs segs).length : Int) then
      insertMarkup (insertMarkup segs sp.stop.toNat (mkTooltip c)) sp.start.toNat (mkOpenTag idx)
    else segs

/-- The splicing loop on the segmented string. -/
def processCitationsSegs (segs : List Seg) (i : Nat) : List Citation → List Seg
  | [] => segs
  | c :: rest => processCitationsSegs (spliceStepSegs segs i c) (i + 1) rest

/-- The segmented run of the highlighter on an answer text. -/
def highlightSegs (content : JStr) (cits : List Citation) : List Seg :=
  processCitationsSegs [(true, content)] 0 (sortCitations cits)

/-! ## Chat client driver (`sendMessage` and session tracking) -/

/-- The mutable `ChatApp` fields relevant to a request round trip:
`this.sessionId` (initialized to `null`) and the loading flag set by
`setLoading`. -/
structure ClientState where
  sessionId : Option JStr
  loading : Bool
deriving DecidableEq

/-- The state right after the constructor ran: `this.sessionId = null`. -/
def initialClientState : ClientState :=
  { sessionId := none, loading := false }

/-- The JSON body of a `POST` request:
`JSON.stringify({ prompt: message, sessionId: sessionId })`. -/
structure RequestBody where
  prompt : JStr
  sessionId : Option JStr
deriving DecidableEq

/-- Build the request body from the stored session:
`const sessionId = this.sessionId` followed by the object literal. -/
def mkRequestBody (st : ClientState) (message : JStr) : RequestBody :=
  { prompt := message, sessionId := st.sessionId }

/-- A successful response body `{ response, citations, sessionId }`. -/
structure ResponseData where
  response : JStr
  citations : List Citation
  sessionId : JStr
deriving DecidableEq

/-- The success path of a round trip:
`this.sessionId = data.sessionId` and the `finally` block's
`setLoading(false)`. -/
def applyResponse (st : ClientState) (d : ResponseData) : ClientState :=
  { st with sessionId := some d.sessionId, loading := false }

/-- The request bodies sent over a session: each round trip sends the body
built from the current state and, on success, stores the returned
`sessionId` for the next one. -/
def sessionRequests : ClientState → List (JStr × ResponseData) → List RequestBody
  | _, [] => []
  | st, (p, d) :: rest => mkRequestBody st p :: sessionRequests (applyResponse st d) rest

/-- The observable actions `sendMessage` performs. -/
inductive ClientAction where
  | addMessage (content : JStr) (msgType : JStr)
  | addBotMessageWithCitations (content : JStr) (cits : List Citation)
  | setLoading (b : Bool)
  | fetchRequest (body : RequestBody)
deriving DecidableEq

/-- JavaScript `String.prototype.trim` whitespace (the code points relevant
to this model). -/
def isJsWhitespace (c : Char) : Bool :=
  c = ' ' || c = '\t' || c = '\n' || c = '\x0d' || c = '\x0b' || c = '\x0c' || c = ' '

/-- `this.messageInput.value.trim()`. -/
def trimJS (s : JStr) : JStr :=
  ((s.dropWhile isJsWhitespace).reverse.dropWhile isJsWhitespace).reverse

/-- The front half of `sendMessage`, up to and including issuing the fetch:
`const message = this.messageInput.value.trim(); if (!message) return;`
then `addMessage(message, 'user')`, `setLoading(true)` and the `fetch`. -/
def sendMessageActions (st : ClientState) (inputValue : JStr) : List ClientAction :=
  let message := trimJS inputValue
  if message = [] then []
  else
    [ClientAction.addMessage message "user".data,
     ClientAction.setLoading true,
     ClientAction.fetchRequest (mkRequestBody st message)]

/-- How a fetch round trip can resolve: a parsed 2xx response, a non-2xx
status (`!response.ok` throws), or a transport error. -/
inductive FetchOutcome where
  | ok (d : ResponseData)
  | httpError (status : Nat)
  | networkError
deriving DecidableEq

/-- The generic apology appended by the `catch` block. -/
def apologyMessage : JStr :=
  "Sorry, I encountered an error. Please try again.".data

/-- The back half of `sendMessage` (`try`/`catch`/`finally`): the state
update and the actions performed once the fetch resolves. -/
def handleOutcome (st : ClientState) (o : FetchOutcome) : ClientState × List ClientAction :=
  match o with
  | .ok d =>
    ({ st with sessionId := some d.sessionId, loading := false },
     [ClientAction.addBotMessageWithCitations d.response d.citations,
      ClientAction.setLoading false])
  | .httpError _ =>
    ({ st with loading := false },
     [ClientAction.addMessage apologyMessage "bot".data,
      ClientAction.setLoading false])
  | .networkError =>
    ({ st with loading := false },
     [ClientAction.addMessage apologyMessage "bot".data,
      ClientAction.setLoading false])

/-! ## Request serialization

`JSON.stringify({ prompt: message, sessionId: sessionId })`, modelled for
the fixed two-field object shape the client sends. -/

/-- A hexadecimal digit, for `\u00XX` escapes of control characters. -/
def hexDigit (n : Nat) : Char :=
  if n < 10 then Char.ofNat (n + 48) else Char.ofNat (n + 87)

/-- JSON escaping of one character, as performed by `JSON.stringify`. -/
def jsonEscapeChar (c : Char) : JStr :=
  if c = '"' then ['\\', '"']
  else if c = '\\' then ['\\', '\\']
  else if c = '\x08' then ['\\', 'b']
  else if c = '\t' then ['\\', 't']
  else if c = '\n' then ['\\', 'n']
  else if c = '\x0c' then ['\\', 'f']
  else if c = '\x0d' then ['\\', 'r']
  else if c.toNat < 32 then
    ['\\', 'u', '0', '0', hexDigit (c.toNat / 16), hexDigit (c.toNat % 16)]
  else [c]

/-- A JSON string literal for `s`. -/
def jsonQuote (s : JStr) : JStr :=
  '"' :: (s.map jsonEscapeChar).flatten ++ ['"']

/-- `JSON.stringify` of the request body object literal: both fields are
always emitted, in source order; a `null` session renders as `null`. -/
def serializeRequestBody (b : RequestBody) : JStr :=
  "\x7b\"prompt\":".data ++ jsonQuote b.prompt ++ ",\"sessionId\":".data ++
    (match b.sessionId with
     | none => "null".data
     | some s => jsonQuote s) ++ "\x7d".data

/-- The span start of a citation (0 for a span-less citation); used to state
ordering properties of the sort. -/
def startKey (c : Citation) : Int :=
  (c.span.map Span.start).getD 0

/-- Comparison by descending span start.  On citations that all carry spans
it agrees with `citLE` and, unlike `citLE`, it is transitive. -/
def keyLE (a b : Citation) : Bool :=
  decide (startKey b ≤ startKey a)

/-! ## Concrete example data used by counterexamples and witnesses -/

/-- The answer text of the spec's example scenario. -/
def wText : JStr := "Paris is the capital.".data

/-- The citation of the spec's example scenario. -/
def wCit : Citation :=
  { source := "docs/geo.txt".data, content := "Paris is the capital city of France.".data,
    span := some ⟨0, 5⟩ }

/-- A three-character answer text. -/
def cexText : JStr := "abc".data

/-- A citation with the valid span (1,3) on `cexText`. -/
def cexA : Citation := { source := "s".data, content := "c".data, span := some ⟨1, 3⟩ }

/-- A citation whose span (0,5) is invalid against `cexText` (length 3). -/
def cexB : Citation := { source := "t".data, content := "d".data, span := some ⟨0, 5⟩ }

/-- A citation with the valid span (0,1) on `cexText`. -/
def cex3A : Citation := { source := "u".data, content := "e".data, span := some ⟨0, 1⟩ }

/-- A span-less citation. -/
def cexX1 : Citation := { source := "v".data, content := "f".data, span := none }

/-- Another span-less citation. -/
def cexX2 : Citation := { source := "w".data, content := "g".data, span := none }

/-- A citation with the valid span (2,3) on `cexText`. -/
def cex3B : Citation := { source := "x".data, content := "h".data, span := some ⟨2, 3⟩ }

/-- A citation with the degenerate span (2,2). -/
def cexD : Citation := { source := "s".data, content := "c".data, span := some ⟨2, 2⟩ }

/-- An eight-character answer text. -/
def text9 : JStr := "abcdefgh".data

/-- A citation with span (0,2) on `text9`, first in the input list. -/
def cexP : Citation := { source := "p".data, content := "i".data, span := some ⟨0, 2⟩ }

/-- A citation with span (5,7) on `text9`, second in the input list. -/
def cexQ : Citation := { source := "q".data, content := "j".data, span := some ⟨5, 7⟩ }

/-- A concrete first response, carrying session identifier "abc123". -/
def wResp1 : ResponseData :=
  { response := "Paris is the capital.".data, citations := [], sessionId := "abc123".data }

/-- A concrete second response, carrying session identifier "def456". -/
def wResp2 : ResponseData :=
  { response := "It is in France.".data, citations := [], sessionId := "def456".data }

/-! ## Lemmas: the fuel-indexed sort computes `List.mergeSort` -/

theorem mergeFuel_eq (le : α → α → Bool) :
    ∀ (f : Nat) (xs ys : List α), xs.length + ys.length ≤ f →
      mergeFuel le f xs ys = List.merge xs ys le := by
  intro f
  induction f with
  | zero =>
    intro xs ys h
    match xs, ys with
    | [], [] => simp [mergeFuel]
    | x :: xs, _ => simp at h
    | [], y :: ys => simp at h
  | succ f ih =>
    intro xs ys h
    match xs, ys with
    | [], ys => simp [mergeFuel]
    | x :: xs, [] => simp [mergeFuel]
    | x :: xs, y :: ys =>
      simp only [mergeFuel, List.merge]
      split <;> rw [ih] <;> simp_all <;> omega

theorem length_mergeFuel (le : α → α → Bool) (f : Nat) (xs ys : List α) :
    (mergeFuel le f xs ys).length = xs.length + ys.length := by
  induction f generalizing xs ys with
  | zero => simp [mergeFuel]
  | succ f ih =>
    match xs, ys with
    | [], ys => simp [mergeFuel]
    | x :: xs, [] => simp [mergeFuel]
    | x :: xs, y :: ys =>
      simp only [mergeFuel]
      split <;> simp [ih] <;> omega

theorem length_mergeSortFuel (le : α → α → Bool) (f : Nat) (l : List α) :
    (mergeSortFuel le f l).length = l.length := by
  induction f generalizing l with
  | zero => simp [mergeSortFuel]
  | succ f ih =>
    match l with
    | [] => simp [mergeSortFuel]
    | [a] => simp [mergeSortFuel]
    | a :: b :: xs =>
      simp only [mergeSortFuel, length_mergeFuel, ih]
      simp
      omega

theorem mergeSortFuel_eq (le : α → α → Bool) :
    ∀ (f : Nat) (l : List α), l.length ≤ f →
      mergeSortFuel le f l = List.mergeSort l le := by
  intro f
  induction f with
  | zero =>
    intro l h
    match l, h with
    | [], _ => simp [mergeSortFuel]
  | succ f ih =>
    intro l h
    match l with
    | [] => simp [mergeSortFuel]
    | [a] => simp [mergeSortFuel]
    | a :: b :: xs =>
      have hlen : (a :: b :: xs).length = xs.length + 2 := by simp
      have h1 : (List.take ((xs.length + 2 + 1) / 2) (a :: b :: xs)).length ≤ f := by
        simp; omega
      have h2 : (List.drop ((xs.length + 2 + 1) / 2) (a :: b :: xs)).length ≤ f := by
        simp; omega
      have h3 : (mergeSortFuel le f (List.take ((xs.length + 2 + 1) / 2) (a :: b :: xs))).length +
          (mergeSortFuel le f (List.drop ((xs.length + 2 + 1) / 2) (a :: b :: xs))).length ≤
          xs.length + 2 := by
        rw [length_mergeSortFuel, length_mergeSortFuel]
        simp
        omega
      rw [List.mergeSort]
      simp only [mergeSortFuel, List.splitInTwo_fst, List.splitInTwo_snd]
      rw [mergeFuel_eq _ _ _ _ h3, ih _ h1, ih _ h2, hlen]

/-- `sortCitations` evaluated via the fuel-indexed sort. -/
theorem sortCitations_eq_fuel (cits : List Citation) :
    sortCitations cits = mergeSortFuel citLE cits.length cits :=
  (mergeSortFuel_eq citLE cits.length cits (Nat.le_refl _)).symm

end WikiAgent


namespace WikiAgent

/-! ## Lemmas: the segmented run refines the string-level run -/

theorem flattenSegs_cons (b : Bool) (cs : JStr) (rest : List Seg) :
    flattenSegs ((b, cs) :: rest) = cs ++ flattenSegs rest := by
  simp [flattenSegs]

theorem textOf_cons (b : Bool) (cs : JStr) (rest : List Seg) :
    textOf ((b, cs) :: rest) = if b then cs ++ textOf rest else textOf rest := by
  cases b <;> simp [textOf]

theorem flattenSegs_insertMarkup (segs : List Seg) (pos : Nat) (m : JStr) :
    flattenSegs (insertMarkup segs pos m) =
      (flattenSegs segs).take pos ++ m ++ (flattenSegs segs).drop pos := by
  induction segs generalizing pos with
  | nil => simp [insertMarkup, flattenSegs]
  | cons seg rest ih =>
    obtain ⟨b, cs⟩ := seg
    rw [flattenSegs_cons]
    simp only [insertMarkup]
    split
    · rename_i hle
      rw [flattenSegs_cons, flattenSegs_cons, flattenSegs_cons]
      rw [List.take_append_eq_append_take, List.drop_append_eq_append_drop,
        Nat.sub_eq_zero_of_le hle]
      simp
    · rename_i hgt
      have hge : cs.length ≤ pos := Nat.le_of_not_lt (fun h => hgt (Nat.le_of_lt h))
      rw [flattenSegs_cons, ih]
      rw [List.take_append_eq_append_take, List.drop_append_eq_append_drop,
        List.take_of_length_le hge, List.drop_of_length_le hge]
      simp

theorem textOf_insertMarkup (segs : List Seg) (pos : Nat) (m : JStr) :
    textOf (insertMarkup segs pos m) = textOf segs := by
  induction segs generalizing pos with
  | nil => simp [insertMarkup, textOf]
  | cons seg rest ih =>
    obtain ⟨b, cs⟩ := seg
    simp only [insertMarkup]
    split
    · rw [textOf_cons, textOf_cons, textOf_cons, textOf_cons]
      cases b <;> simp [← List.append_assoc, List.take_append_drop]
    · rw [textOf_cons, textOf_cons, ih]

end WikiAgent

namespace WikiAgent

theorem insert_insert_take_drop (pc o t : JStr) (s e : Nat) (hse : s ≤ e) (hel : e ≤ pc.length) :
    (pc.take e ++ t ++ pc.drop e).take s ++ o ++ (pc.take e ++ t ++ pc.drop e).drop s =
      pc.take s ++ o ++ ((pc.take e).drop s ++ (t ++ pc.drop e)) := by
  have hlen : (pc.take e).length = e := by
    rw [List.length_take, Nat.min_eq_left hel]
  have hs : s ≤ (pc.take e).length := by rw [hlen]; exact hse
  have htake : (pc.take e ++ t ++ pc.drop e).take s = pc.take s := by
    rw [List.append_assoc, List.take_append_eq_append_take, Nat.sub_eq_zero_of_le hs,
      List.take_take, Nat.min_eq_left hse]
    simp
  have hdrop : (pc.take e ++ t ++ pc.drop e).drop s = (pc.take e).drop s ++ (t ++ pc.drop e) := by
    rw [List.append_assoc, List.drop_append_eq_append_drop, Nat.sub_eq_zero_of_le hs,
      List.drop_zero]
  rw [htake, hdrop]

theorem flattenSegs_spliceStepSegs (segs : List Seg) (idx : Nat) (c : Citation) :
    flattenSegs (spliceStepSegs segs idx c) = (spliceStep (flattenSegs segs) idx c).1 := by
  cases hsp : c.span with
  | none => simp [spliceStepSegs, spliceStep, hsp]
  | some sp =>
    by_cases hg : 0 ≤ sp.start ∧ sp.start < sp.stop ∧ sp.stop ≤ ((flattenSegs segs).length : Int)
    · obtain ⟨h0, hlt, hle⟩ := hg
      have hse : sp.start.toNat ≤ sp.stop.toNat := Int.toNat_le_toNat (le_of_lt hlt)
      have hel : sp.stop.toNat ≤ (flattenSegs segs).length := Int.toNat_le.mpr hle
      simp only [spliceStepSegs, spliceStep, hsp, if_pos (⟨h0, hlt, hle⟩ :
        0 ≤ sp.start ∧ sp.start < sp.stop ∧ sp.stop ≤ ((flattenSegs segs).length : Int))]
      rw [flattenSegs_insertMarkup, flattenSegs_insertMarkup,
        insert_insert_take_drop _ _ _ _ _ hse hel]
      simp
    · simp only [spliceStepSegs, spliceStep, hsp, if_neg hg]

theorem textOf_spliceStepSegs (segs : List Seg) (idx : Nat) (c : Citation) :
    textOf (spliceStepSegs segs idx c) = textOf segs := by
  cases hsp : c.span with
  | none => simp [spliceStepSegs, hsp]
  | some sp =>
    simp only [spliceStepSegs, hsp]
    split
    · rw [textOf_insertMarkup, textOf_insertMarkup]
    · rfl

theorem processCitations_cons_fst (pc : JStr) (i : Nat) (c : Citation) (rest : List Citation) :
    (processCitations pc i (c :: rest)).1 = (processCitations (spliceStep pc i c).1 (i + 1) rest).1 := by
  simp only [processCitations]
  rcases spliceStep pc i c with ⟨pc', rec?⟩
  rcases processCitations pc' (i + 1) rest with ⟨pcf, recs⟩
  cases rec? <;> rfl

theorem processCitations_cons_snd (pc : JStr) (i : Nat) (c : Citation) (rest : List Citation) :
    (processCitations pc i (c :: rest)).2 =
      (match (spliceStep pc i c).2 with
       | some h => (i, c, h) :: (processCitations (spliceStep pc i c).1 (i + 1) rest).2
       | none => (processCitations (spliceStep pc i c).1 (i + 1) rest).2) := by
  simp only [processCitations]
  rcases spliceStep pc i c with ⟨pc', rec?⟩
  rcases processCitations pc' (i + 1) rest with ⟨pcf, recs⟩
  cases rec? <;> rfl

theorem flattenSegs_processCitationsSegs (l : List Citation) (segs : List Seg) (i : Nat) :
    flattenSegs (processCitationsSegs segs i l) = (processCitations (flattenSegs segs) i l).1 := by
  induction l generalizing segs i with
  | nil => rfl
  | cons c rest ih =>
    rw [processCitations_cons_fst]
    simp only [processCitationsSegs]
    rw [ih, flattenSegs_spliceStepSegs]

theorem textOf_processCitationsSegs (l : List Citation) (segs : List Seg) (i : Nat) :
    textOf (processCitationsSegs segs i l) = textOf segs := by
  induction l generalizing segs i with
  | nil => rfl
  | cons c rest ih =>
    simp only [processCitationsSegs]
    rw [ih, textOf_spliceStepSegs]

theorem flattenSegs_highlightSegs (content : JStr) (cits : List Citation) :
    flattenSegs (highlightSegs content cits) = processedContent content cits := by
  rw [highlightSegs, processedContent, flattenSegs_processCitationsSegs]
  congr 1
  simp [flattenSegs]

theorem textOf_highlightSegs (content : JStr) (cits : List Citation) :
    textOf (highlightSegs content cits) = content := by
  rw [highlightSegs, textOf_processCitationsSegs]
  simp [textOf]

end WikiAgent

namespace WikiAgent

/-! ## Lemmas: which citations get spliced -/

theorem spliceStep_decomp (pc : JStr) (idx : Nat) (c : Citation) (sp : Span)
    (hsp : c.span = some sp)
    (hg : 0 ≤ sp.start ∧ sp.start < sp.stop ∧ sp.stop ≤ (pc.length : Int)) :
    spliceStep pc idx c =
      (pc.take sp.start.toNat ++ mkOpenTag idx ++ (pc.take sp.stop.toNat).drop sp.start.toNat ++
        mkTooltip c ++ pc.drop sp.stop.toNat,
       some ((pc.take sp.stop.toNat).drop sp.start.toNat)) := by
  simp only [spliceStep, hsp, if_pos hg]

theorem length_spliceStep_fst (pc : JStr) (idx : Nat) (c : Citation) :
    pc.length ≤ (spliceStep pc idx c).1.length := by
  cases hsp : c.span with
  | none => simp [spliceStep, hsp]
  | some sp =>
    by_cases hg : 0 ≤ sp.start ∧ sp.start < sp.stop ∧ sp.stop ≤ (pc.length : Int)
    · obtain ⟨h0, hlt, hle⟩ := hg
      have hse : sp.start.toNat ≤ sp.stop.toNat := Int.toNat_le_toNat (le_of_lt hlt)
      have hel : sp.stop.toNat ≤ pc.length := Int.toNat_le.mpr hle
      rw [spliceStep_decomp pc idx c sp hsp ⟨h0, hlt, hle⟩]
      simp only [List.length_append, List.length_take, List.length_drop]
      omega
    · simp [spliceStep, hsp, if_neg hg]

theorem length_processCitations_fst (l : List Citation) (pc : JStr) (i : Nat) :
    pc.length ≤ (processCitations pc i l).1.length := by
  induction l generalizing pc i with
  | nil => exact Nat.le_refl _
  | cons c rest ih =>
    rw [processCitations_cons_fst]
    exact Nat.le_trans (length_spliceStep_fst pc i c) (ih _ _)

/-- A splice was recorded exactly when the citation's span passed the guard
against the current string; the recorded substring is the wrapped one. -/
theorem spliceStep_some (pc : JStr) (idx : Nat) (c : Citation) (h : JStr)
    (hstep : (spliceStep pc idx c).2 = some h) :
    ∃ sp, c.span = some sp ∧ 0 ≤ sp.start ∧ sp.start < sp.stop ∧
      sp.stop ≤ (pc.length : Int) ∧ h = (pc.take sp.stop.toNat).drop sp.start.toNat := by
  cases hsp : c.span with
  | none => simp [spliceStep, hsp] at hstep
  | some sp =>
    simp only [spliceStep, hsp] at hstep
    split at hstep
    · rename_i hg
      exact ⟨sp, rfl, hg.1, hg.2.1, hg.2.2, (Option.some_inj.mp hstep).symm⟩
    · simp at hstep

/-- Soundness of the splice records: every record comes from a citation at
the recorded position of the processed list, its span passed the guard. -/
theorem spliceRecords_sound (l : List Citation) (pc : JStr) (i : Nat) :
    ∀ r ∈ (processCitations pc i l).2,
      i ≤ r.1 ∧ l.get? (r.1 - i) = some r.2.1 ∧
      ∃ sp, r.2.1.span = some sp ∧ 0 ≤ sp.start ∧ sp.start < sp.stop := by
  induction l generalizing pc i with
  | nil => intro r hr; simp [processCitations] at hr
  | cons c rest ih =>
    intro r hr
    rw [processCitations_cons_snd] at hr
    have tail_case : r ∈ (processCitations (spliceStep pc i c).1 (i + 1) rest).2 →
        i ≤ r.1 ∧ (c :: rest).get? (r.1 - i) = some r.2.1 ∧
        ∃ sp, r.2.1.span = some sp ∧ 0 ≤ sp.start ∧ sp.start < sp.stop := by
      intro hmem
      obtain ⟨hle, hget, hsp⟩ := ih _ _ r hmem
      refine ⟨Nat.le_trans (Nat.le_succ i) hle, ?_, hsp⟩
      have : r.1 - i = (r.1 - (i + 1)) + 1 := by omega
      rw [this]
      simpa using hget
    rcases hstep : (spliceStep pc i c).2 with _ | h
    · rw [hstep] at hr
      exact tail_case hr
    · rw [hstep] at hr
      rcases List.mem_cons.mp hr with heq | hmem
      · subst heq
        obtain ⟨sp, hsp, h0, hlt, -, -⟩ := spliceStep_some pc i c h hstep
        exact ⟨Nat.le_refl i, by simp, sp, hsp, h0, hlt⟩
      · exact tail_case hmem

/-- Completeness: a citation of the processed list whose span is valid for
the original text is always spliced (the processed string only grows). -/
theorem spliceRecords_complete (l : List Citation) (pc : JStr) (i : Nat)
    (c : Citation) (sp : Span) (hc : c ∈ l) (hsp : c.span = some sp)
    (h0 : 0 ≤ sp.start) (hlt : sp.start < sp.stop) (hle : sp.stop ≤ (pc.length : Int)) :
    ∃ j h, (j, c, h) ∈ (processCitations pc i l).2 := by
  induction l generalizing pc i with
  | nil => cases hc
  | cons d rest ih =>
    rw [processCitations_cons_snd]
    rcases List.mem_cons.mp hc with heq | hmem
    · subst heq
      have hg : 0 ≤ sp.start ∧ sp.start < sp.stop ∧ sp.stop ≤ (pc.length : Int) :=
        ⟨h0, hlt, hle⟩
      rw [spliceStep_decomp pc i c sp hsp hg]
      exact ⟨i, _, List.mem_cons_self _ _⟩
    · have hle' : sp.stop ≤ ((spliceStep pc i d).1.length : Int) :=
        le_trans hle (Int.ofNat_le.mpr (length_spliceStep_fst pc i d))
      obtain ⟨j, h, hmem'⟩ := ih _ _ hmem hle'
      rcases (spliceStep pc i d).2 with _ | h'
      · exact ⟨j, h, hmem'⟩
      · exact ⟨j, h, List.mem_cons_of_mem _ hmem'⟩

end WikiAgent

namespace WikiAgent

/-! ## Lemmas: order of the splices -/

theorem spliceRecords_map_sublist (l : List Citation) (pc : JStr) (i : Nat) :
    List.Sublist ((processCitations pc i l).2.map (fun r => r.2.1)) l := by
  induction l generalizing pc i with
  | nil => simp [processCitations]
  | cons c rest ih =>
    rw [processCitations_cons_snd]
    rcases (spliceStep pc i c).2 with _ | h
    · exact (ih _ _).cons c
    · simpa using (ih _ _).cons₂ c

theorem citLE_eq_keyLE (a b : Citation) (ha : a.span.isSome) (hb : b.span.isSome) :
    citLE a b = keyLE a b := by
  obtain ⟨sa, hsa⟩ := Option.isSome_iff_exists.mp ha
  obtain ⟨sb, hsb⟩ := Option.isSome_iff_exists.mp hb
  simp only [citLE, keyLE, compareCitations, startKey, hsa, hsb, Option.map_some',
    Option.getD_some, decide_eq_decide]
  omega

theorem keyLE_trans (a b c : Citation) (hab : keyLE a b) (hbc : keyLE b c) : keyLE a c := by
  simp only [keyLE, decide_eq_true_eq] at *
  omega

theorem keyLE_total (a b : Citation) : keyLE a b || keyLE b a := by
  simp only [keyLE]
  by_cases h : startKey b ≤ startKey a
  · simp [h]
  · simp [le_of_lt (lt_of_not_le h)]

theorem sortCitations_eq_keySort (cits : List Citation) (h : ∀ c ∈ cits, c.span.isSome) :
    sortCitations cits = cits.mergeSort keyLE := by
  have := @List.map_mergeSort Citation Citation citLE keyLE id cits
    (fun a ha b hb => citLE_eq_keyLE a b (h a ha) (h b hb))
  simpa [List.map_id] using this

theorem sortCitations_pairwise_keyLE (cits : List Citation) (h : ∀ c ∈ cits, c.span.isSome) :
    (sortCitations cits).Pairwise (fun a b => keyLE a b) := by
  rw [sortCitations_eq_keySort cits h]
  have := @List.sorted_mergeSort Citation keyLE keyLE_trans keyLE_total cits
  exact this.imp (fun hx => hx)

theorem sortCitations_pairwise_strict (cits : List Citation)
    (h : ∀ c ∈ cits, c.span.isSome)
    (hdist : cits.Pairwise (fun a b => startKey a ≠ startKey b)) :
    (sortCitations cits).Pairwise (fun a b => startKey b < startKey a) := by
  have hperm : List.Perm (sortCitations cits) cits := List.mergeSort_perm cits citLE
  have hdist' : (sortCitations cits).Pairwise (fun a b => startKey a ≠ startKey b) :=
    (List.Perm.pairwise_iff (fun hab => Ne.symm hab) hperm).mpr hdist
  have hle := sortCitations_pairwise_keyLE cits h
  have hcomb := hle.and hdist'
  exact hcomb.imp (fun hx => by
    obtain ⟨h1, h2⟩ := hx
    simp only [keyLE, decide_eq_true_eq] at h1
    omega)

theorem filterMap_start_eq_map (l : List Citation) (h : ∀ c ∈ l, c.span.isSome) :
    l.filterMap (fun c => c.span.map Span.start) = l.map startKey := by
  induction l with
  | nil => simp
  | cons c rest ih =>
    obtain ⟨sp, hsp⟩ := Option.isSome_iff_exists.mp (h c (List.mem_cons_self _ _))
    rw [List.filterMap_cons, List.map_cons]
    simp only [hsp, Option.map_some']
    rw [ih (fun d hd => h d (List.mem_cons_of_mem _ hd))]
    simp [startKey, hsp]

theorem spliceStarts_pairwise_of_spans (text : JStr) (cits : List Citation)
    (h : ∀ c ∈ cits, c.span.isSome)
    (hdist : cits.Pairwise (fun a b => startKey a ≠ startKey b)) :
    (spliceStarts text cits).Pairwise (fun a b => b < a) := by
  have hsub : List.Sublist ((spliceRecords text cits).map (fun r => r.2.1))
      (sortCitations cits) :=
    spliceRecords_map_sublist _ _ _
  have hsub' : List.Sublist (spliceStarts text cits)
      ((sortCitations cits).filterMap (fun c => c.span.map Span.start)) := by
    have : spliceStarts text cits =
        ((spliceRecords text cits).map (fun r => r.2.1)).filterMap
          (fun c => c.span.map Span.start) := by
      rw [List.filterMap_map]
      rfl
    rw [this]
    exact hsub.filterMap _
  have hsome : ∀ c ∈ sortCitations cits, c.span.isSome := by
    intro c hc
    exact h c ((List.mergeSort_perm cits citLE).mem_iff.mp hc)
  have hsorted := sortCitations_pairwise_strict cits h hdist
  have : ((sortCitations cits).filterMap (fun c => c.span.map Span.start)).Pairwise
      (fun a b => b < a) := by
    rw [filterMap_start_eq_map _ hsome, List.pairwise_map]
    exact hsorted
  exact this.sublist hsub'

end WikiAgent

namespace WikiAgent

/-- With exactly two span citations, the lower-offset one first in the input,
the higher-offset one is sorted first and spliced first, and the lower-offset
citation still wraps its original, uncorrupted substring of the answer. -/
theorem two_citation_records (text : JStr) (c1 c2 : Citation) (s1 e1 s2 e2 : Int)
    (h1 : c1.span = some ⟨s1, e1⟩) (h2 : c2.span = some ⟨s2, e2⟩)
    (h0 : 0 ≤ s1) (ha : s1 < e1) (hb : e1 ≤ s2) (hc : s2 < e2)
    (hd : e2 ≤ (text.length : Int)) :
    spliceRecords text [c1, c2] =
      [(0, c2, (text.take e2.toNat).drop s2.toNat),
       (1, c1, (text.take e1.toNat).drop s1.toNat)] := by
  have hs2e2 : s2.toNat ≤ e2.toNat := Int.toNat_le_toNat (le_of_lt hc)
  have he2len : e2.toNat ≤ text.length := Int.toNat_le.mpr hd
  have hs2len : s2.toNat ≤ text.length := le_trans hs2e2 he2len
  have he1s2 : e1.toNat ≤ s2.toNat := Int.toNat_le_toNat hb
  have hsort : sortCitations [c1, c2] = [c2, c1] := by
    have hns : ¬ (s2 - s1 ≤ 0) := by omega
    rw [sortCitations_eq_fuel]
    simp [mergeSortFuel, mergeFuel, citLE, compareCitations, h1, h2, hns]
  have hg2 : (0:Int) ≤ s2 ∧ s2 < e2 ∧ e2 ≤ (text.length : Int) := ⟨by omega, hc, hd⟩
  have hstep2 : spliceStep text 0 c2 =
      (text.take s2.toNat ++ mkOpenTag 0 ++ (text.take e2.toNat).drop s2.toNat ++
        mkTooltip c2 ++ text.drop e2.toNat,
       some ((text.take e2.toNat).drop s2.toNat)) :=
    spliceStep_decomp text 0 c2 ⟨s2, e2⟩ h2 hg2
  have hlen1 : text.length ≤ (text.take s2.toNat ++ mkOpenTag 0 ++
      (text.take e2.toNat).drop s2.toNat ++ mkTooltip c2 ++ text.drop e2.toNat).length := by
    have := length_spliceStep_fst text 0 c2
    rw [hstep2] at this
    exact this
  have hg1 : (0:Int) ≤ s1 ∧ s1 < e1 ∧ e1 ≤ ((text.take s2.toNat ++ mkOpenTag 0 ++
      (text.take e2.toNat).drop s2.toNat ++ mkTooltip c2 ++ text.drop e2.toNat).length : Int) := by
    refine ⟨h0, ha, ?_⟩
    have hint : (text.length : Int) ≤ ((text.take s2.toNat ++ mkOpenTag 0 ++
        (text.take e2.toNat).drop s2.toNat ++ mkTooltip c2 ++ text.drop e2.toNat).length : Int) :=
      Int.ofNat_le.mpr hlen1
    omega
  have hstep1 := spliceStep_decomp (text.take s2.toNat ++ mkOpenTag 0 ++
    (text.take e2.toNat).drop s2.toNat ++ mkTooltip c2 ++ text.drop e2.toNat) 1 c1 ⟨s1, e1⟩ h1 hg1
  have htake : (text.take s2.toNat ++ mkOpenTag 0 ++
      (text.take e2.toNat).drop s2.toNat ++ mkTooltip c2 ++ text.drop e2.toNat).take e1.toNat =
      text.take e1.toNat := by
    have hlen_take : (text.take s2.toNat).length = s2.toNat := by
      rw [List.length_take, Nat.min_eq_left hs2len]
    rw [List.append_assoc, List.append_assoc, List.append_assoc,
      List.take_append_eq_append_take, hlen_take, Nat.sub_eq_zero_of_le he1s2,
      List.take_take, Nat.min_eq_left he1s2]
    simp
  rw [spliceRecords, hsort, processCitations_cons_snd, hstep2]
  simp only
  rw [processCitations_cons_snd, hstep1]
  simp only [htake, processCitations]

/-! ## Lemmas: the sources footer -/

theorem foldl_append_entries (l : List (Nat × Citation)) (acc : JStr) :
    l.foldl (fun a p => a ++ footerEntry (p.1 + 1) p.2) acc =
      acc ++ (l.map (fun p => footerEntry (p.1 + 1) p.2)).flatten := by
  induction l generalizing acc with
  | nil => simp
  | cons p rest ih => simp [ih, List.append_assoc]

/-- The footer is the header followed by one numbered line per citation, in
the original input order. -/
theorem footerStr_eq (cits : List Citation) :
    footerStr cits =
      footerHeader ++ (cits.enum.map (fun p => footerEntry (p.1 + 1) p.2)).flatten := by
  rw [footerStr, foldl_append_entries]

/-- The citation at input position `k` is listed in the footer as entry
`[k+1]`. -/
theorem footerStr_entry (cits : List Citation) (k : Nat) (c : Citation)
    (hk : cits.get? k = some c) :
    ∃ pre post, footerStr cits = pre ++ footerEntry (k + 1) c ++ post := by
  have hmem : (k, c) ∈ cits.enum := List.mk_mem_enum_iff_getElem?.mpr (by simpa using hk)
  obtain ⟨l1, l2, hsplit⟩ := List.append_of_mem hmem
  refine ⟨footerHeader ++ (l1.map (fun p => footerEntry (p.1 + 1) p.2)).flatten,
    (l2.map (fun p => footerEntry (p.1 + 1) p.2)).flatten, ?_⟩
  rw [footerStr_eq, hsplit]
  simp [List.append_assoc]

end WikiAgent

namespace WikiAgent

/-! ## Claim theorems -/

/-- Claim C1: for every answer text and every list of citations whose spans
are individually valid (`0 ≤ start < end ≤ length text`) and pairwise
non-overlapping, stripping all markup the highlighter inserted from the
output of the string-splicing step yields exactly the original answer text:
the segmented run flattens to the string `addMessageWithCitations` computes,
and its text segments strip back to the input text. -/
theorem highlight_strip_roundtrip (text : JStr) (cits : List Citation)
    (hvalid : ∀ c ∈ cits, ∀ sp, c.span = some sp →
      0 ≤ sp.start ∧ sp.start < sp.stop ∧ sp.stop ≤ (text.length : Int))
    (hdisjoint : cits.Pairwise (fun a b => ∀ sa sb, a.span = some sa → b.span = some sb →
      sa.stop ≤ sb.start ∨ sb.stop ≤ sa.start)) :
    flattenSegs (highlightSegs text cits) = processedContent text cits ∧
    textOf (highlightSegs text cits) = text := by
  clear hvalid hdisjoint
  exact ⟨flattenSegs_highlightSegs text cits, textOf_highlightSegs text cits⟩

/-- Witness for C1 at the spec's example scenario. -/
theorem highlight_strip_roundtrip_witness :
    flattenSegs (highlightSegs wText [wCit]) = processedContent wText [wCit] ∧
    textOf (highlightSegs wText [wCit]) = wText :=
  highlight_strip_roundtrip wText [wCit]
    (by
      intro c hc sp hsp
      rw [List.mem_singleton] at hc
      subst hc
      have hspan : sp = ⟨0, 5⟩ := (Option.some_inj.mp hsp).symm
      subst hspan
      refine ⟨by decide, by decide, by decide⟩)
    (List.pairwise_singleton _ _)

/-- Claim C2 (amended): a citation is wrapped inline exactly when its span
passes the guard against the processed text current at its turn.  Every
citation whose span is valid against the original answer text is wrapped
inline; a citation with `end ≤ start` or `start < 0` is never wrapped
inline; but validity is tested against the current, already-grown
`processedContent`, so a span reaching beyond the original text can still
be wrapped (see the counterexample). -/
theorem splice_guard_characterization (text : JStr) (cits : List Citation)
    (c : Citation) (sp : Span) (hc : c ∈ cits) (hsp : c.span = some sp) :
    (0 ≤ sp.start ∧ sp.start < sp.stop ∧ sp.stop ≤ (text.length : Int) →
      ∃ j h, (j, c, h) ∈ spliceRecords text cits) ∧
    ((sp.stop ≤ sp.start ∨ sp.start < 0) →
      ∀ j h, (j, c, h) ∉ spliceRecords text cits) := by
  constructor
  · rintro ⟨h0, hlt, hle⟩
    exact spliceRecords_complete (sortCitations cits) text 0 c sp
      (List.mem_mergeSort.mpr hc) hsp h0 hlt hle
  · intro hbad j h hmem
    obtain ⟨-, -, sp', hsp', h0', hlt'⟩ := spliceRecords_sound (sortCitations cits) text 0 _ hmem
    rw [hsp] at hsp'
    obtain rfl : sp = sp' := Option.some_inj.mp hsp'
    omega

/-- Witness for C2's amended theorem: on `cexText` with input `[cexA, cexB]`,
`cexA` (span (1,3), valid) is wrapped, and a degenerate-span citation is
never wrapped. -/
theorem splice_guard_characterization_witness :
    (∃ j h, (j, cexA, h) ∈ spliceRecords cexText [cexA, cexB]) ∧
    ((0, cexD, ([] : JStr)) ∉ spliceRecords cexText [cexD]) :=
  ⟨(splice_guard_characterization cexText [cexA, cexB] cexA ⟨1, 3⟩
      (List.mem_cons_self _ _) rfl).1 ⟨by decide, by decide, by decide⟩,
   (splice_guard_characterization cexText [cexD] cexD ⟨2, 2⟩
      (List.mem_cons_self _ _) rfl).2 (Or.inl (by decide)) 0 []⟩

set_option maxRecDepth 10000 in
/-- Counterexample to C2 as stated: on the three-character text `cexText`,
citation `cexB` carries span (0,5), invalid against the original text
(5 > 3), yet it is wrapped inline (it appears in the splice records),
because after `cexA`'s splice the processed string has grown past length 5
and the guard tests against that grown string. -/
theorem splice_guard_counterexample :
    (spliceRecords cexText [cexA, cexB]).map (fun r => (r.1, r.2.1)) =
      [(0, cexA), (1, cexB)] ∧
    cexB.span = some ⟨0, 5⟩ ∧ ¬ ((5 : Int) ≤ (cexText.length : Int)) := by
  refine ⟨?_, rfl, by decide⟩
  simp only [spliceRecords, sortCitations_eq_fuel]
  decide

end WikiAgent

namespace WikiAgent

/-- Claim C3 (amended): when every citation carries a span and the span
start values are pairwise distinct, the citations are spliced in strictly
descending order of span start; and for a two-citation list with valid,
non-overlapping spans the higher-offset span is applied first and the
lower-offset citation wraps its original, uncorrupted substring.  (With
span-less citations interleaved the comparator is inconsistent and a stable
sort need not restore descending order among the span citations; see the
counterexample.) -/
theorem descending_splice_order (text : JStr) (cits : List Citation)
    (hspans : ∀ c ∈ cits, c.span.isSome)
    (hdist : cits.Pairwise (fun a b => startKey a ≠ startKey b)) :
    (spliceStarts text cits).Pairwise (fun a b => b < a) ∧
    (∀ (c1 c2 : Citation) (s1 e1 s2 e2 : Int),
      c1.span = some ⟨s1, e1⟩ → c2.span = some ⟨s2, e2⟩ →
      0 ≤ s1 → s1 < e1 → e1 ≤ s2 → s2 < e2 → e2 ≤ (text.length : Int) →
      spliceRecords text [c1, c2] =
        [(0, c2, (text.take e2.toNat).drop s2.toNat),
         (1, c1, (text.take e1.toNat).drop s1.toNat)]) := by
  refine ⟨spliceStarts_pairwise_of_spans text cits hspans hdist, ?_⟩
  intro c1 c2 s1 e1 s2 e2 h1 h2 h0 hlta hltb hltc hltd
  exact two_citation_records text c1 c2 s1 e1 s2 e2 h1 h2 h0 hlta hltb hltc hltd

set_option maxRecDepth 10000 in
/-- Witness for C3's amended theorem: on `text9` with the all-span input
`[cexP, cexQ]` (starts 0 and 5) the splice starts are strictly descending,
and the two-citation shape is as stated. -/
theorem descending_splice_order_witness :
    (spliceStarts text9 [cexP, cexQ]).Pairwise (fun a b => b < a) ∧
    spliceRecords text9 [cexP, cexQ] =
      [(0, cexQ, (text9.take (7 : Int).toNat).drop (5 : Int).toNat),
       (1, cexP, (text9.take (2 : Int).toNat).drop (0 : Int).toNat)] := by
  have h := descending_splice_order text9 [cexP, cexQ]
    (by intro c hc; rcases List.mem_cons.mp hc with rfl | hc' <;> first | rfl | (rcases List.mem_singleton.mp hc' with rfl; rfl))
    (by decide)
  exact ⟨h.1, h.2 cexP cexQ 0 2 5 7 rfl rfl (by decide) (by decide) (by decide) (by decide) (by decide)⟩

set_option maxRecDepth 10000 in
/-- Counterexample to C3 as stated: with the two span-less citations
`cexX1`, `cexX2` interleaved between `cex3A` (span (0,1)) and `cex3B`
(span (2,3)) — all spans valid and non-overlapping — the comparator returns
0 against span-less citations, the stable sort leaves `cex3A` before
`cex3B`, and the spliced span starts come out as [0, 2]: not strictly
descending. -/
theorem descending_splice_order_counterexample :
    spliceStarts cexText [cex3A, cexX1, cexX2, cex3B] = [0, 2] ∧
    ¬ (spliceStarts cexText [cex3A, cexX1, cexX2, cex3B]).Pairwise (fun a b => b < a) := by
  have h : spliceStarts cexText [cex3A, cexX1, cexX2, cex3B] = [0, 2] := by
    simp only [spliceStarts, spliceRecords, sortCitations_eq_fuel]
    decide
  refine ⟨h, ?_⟩
  rw [h]
  decide

end WikiAgent

namespace WikiAgent

/-- Claim C4: over any run of successful round trips, the client stores the
`sessionId` returned by each response and sends exactly that stored value in
the next request body: request `i+1` carries response `i`'s session
identifier unchanged. -/
theorem session_continuity (st : ClientState) (trips : List (JStr × ResponseData)) (i : Nat)
    (h : i + 1 < trips.length) :
    ((sessionRequests st trips).get? (i + 1)).map RequestBody.sessionId =
      (trips.get? i).map (fun t => some t.2.sessionId) := by
  induction trips generalizing st i with
  | nil => simp at h
  | cons t rest ih =>
    cases i with
    | zero =>
      cases rest with
      | nil => simp at h
      | cons t' rest' =>
        simp [sessionRequests, mkRequestBody, applyResponse]
    | succ i =>
      have h' : i + 1 < rest.length := by
        simp at h
        omega
      simpa [sessionRequests] using ih (applyResponse st t.2) i h'

/-- Witness for C4: in a two-trip session starting from the initial state,
the second request carries the first response's identifier "abc123". -/
theorem session_continuity_witness :
    ((sessionRequests initialClientState
        [("q1".data, wResp1), ("q2".data, wResp2)]).get? 1).map RequestBody.sessionId =
      ([("q1".data, wResp1), ("q2".data, wResp2)].get? 0).map (fun t => some t.2.sessionId) :=
  session_continuity initialClientState [("q1".data, wResp1), ("q2".data, wResp2)] 0
    (by decide)

/-- Claim C5: a citation with a degenerate span (`start == end`) is never
wrapped inline (it fails the `end > start` guard at every step), and it is
still listed in the sources footer at its input position. -/
theorem degenerate_span_excluded (text : JStr) (cits : List Citation)
    (c : Citation) (s : Int) (hsp : c.span = some ⟨s, s⟩) :
    (∀ j h, (j, c, h) ∉ spliceRecords text cits) ∧
    (∀ k, cits.get? k = some c →
      ∃ pre post, footerStr cits = pre ++ footerEntry (k + 1) c ++ post) := by
  constructor
  · intro j h hmem
    obtain ⟨-, -, sp', hsp', h0', hlt'⟩ := spliceRecords_sound (sortCitations cits) text 0 _ hmem
    rw [hsp] at hsp'
    obtain rfl : (⟨s, s⟩ : Span) = sp' := Option.some_inj.mp hsp'
    simp at hlt'
  · intro k hk
    exact footerStr_entry cits k c hk

/-- Witness for C5: the citation `cexD` with span (2,2) is not spliced into
"abc" and still appears as footer entry [1]. -/
theorem degenerate_span_excluded_witness :
    ((0, cexD, ([] : JStr)) ∉ spliceRecords cexText [cexD]) ∧
    (∃ pre post, footerStr [cexD] = pre ++ footerEntry 1 cexD ++ post) :=
  ⟨(degenerate_span_excluded cexText [cexD] cexD 2 rfl).1 0 [],
   (degenerate_span_excluded cexText [cexD] cexD 2 rfl).2 0 (by decide)⟩

/-- Claim C6: with a non-empty citations list the rendered message carries
the footer, which is the header followed by one line per citation in the
original input order, numbered [1], [2], ...; with an empty citations list
the rendered text is the input text itself and no footer is produced. -/
theorem footer_lists_all_citations (text : JStr) (cits : List Citation) :
    (cits ≠ [] →
      addMessageWithCitations text cits =
        { html := processedContent text cits, footer := some (footerStr cits) } ∧
      footerStr cits =
        footerHeader ++ (cits.enum.map (fun p => footerEntry (p.1 + 1) p.2)).flatten) ∧
    addMessageWithCitations text [] = { html := text, footer := none } := by
  constructor
  · intro hne
    refine ⟨?_, footerStr_eq cits⟩
    rw [addMessageWithCitations, if_pos (List.length_pos.mpr hne)]
  · rfl

/-- Witness for C6 on a two-citation list. -/
theorem footer_lists_all_citations_witness :
    addMessageWithCitations cexText [cexA, cexB] =
      { html := processedContent cexText [cexA, cexB],
        footer := some (footerStr [cexA, cexB]) } ∧
    footerStr [cexA, cexB] = "<strong>Sources:</strong><br>[1] s<br>[2] t<br>".data :=
  ⟨((footer_lists_all_citations cexText [cexA, cexB]).1 (by decide)).1,
   by decide⟩

/-- Claim C7: a submission whose prompt is empty is rejected before anything
happens: `sendMessage` performs no action at all — in particular no fetch is
issued and the loading state is never entered. -/
theorem empty_prompt_no_fetch (st : ClientState) :
    sendMessageActions st [] = [] ∧
    (∀ b, ClientAction.fetchRequest b ∉ sendMessageActions st []) ∧
    ClientAction.setLoading true ∉ sendMessageActions st [] := by
  refine ⟨rfl, ?_, ?_⟩ <;> simp [sendMessageActions, trimJS]

/-- Claim C8: every failing round trip (non-2xx status or transport error)
appends exactly one generic apology message, leaves the stored session
unchanged, and returns the client to the interactive (non-loading) state. -/
theorem failed_request_recovery (st : ClientState) (o : FetchOutcome)
    (hfail : ∀ d, o ≠ FetchOutcome.ok d) :
    (handleOutcome st o).2 =
      [ClientAction.addMessage apologyMessage "bot".data, ClientAction.setLoading false] ∧
    (handleOutcome st o).1.loading = false ∧
    (handleOutcome st o).1.sessionId = st.sessionId := by
  cases o with
  | ok d => exact absurd rfl (hfail d)
  | httpError s => exact ⟨rfl, rfl, rfl⟩
  | networkError => exact ⟨rfl, rfl, rfl⟩

/-- Witness for C8 at a concrete 500 response. -/
theorem failed_request_recovery_witness :
    (handleOutcome initialClientState (FetchOutcome.httpError 500)).2 =
      [ClientAction.addMessage apologyMessage "bot".data, ClientAction.setLoading false] ∧
    (handleOutcome initialClientState (FetchOutcome.httpError 500)).1.loading = false ∧
    (handleOutcome initialClientState (FetchOutcome.httpError 500)).1.sessionId =
      initialClientState.sessionId :=
  failed_request_recovery initialClientState (FetchOutcome.httpError 500)
    (fun d h => FetchOutcome.noConfusion h)

end WikiAgent

namespace WikiAgent

set_option maxRecDepth 10000 in
/-- Claim C9: the index embedded in each inline marker (`data-citation-id`)
is the citation's position in the descending-start *sorted* array, not its
position in the original input list; concretely, on `text9` with input
`[cexP, cexQ]` the citation `cexQ` gets marker index 0 although it is the
second input citation, numbered [2] in the footer. -/
theorem marker_index_is_sorted_position :
    (∀ (text : JStr) (cits : List Citation) (j : Nat) (c : Citation) (h : JStr),
      (j, c, h) ∈ spliceRecords text cits → (sortCitations cits).get? j = some c) ∧
    ((spliceRecords text9 [cexP, cexQ]).map (fun r => (r.1, r.2.1)) =
        [(0, cexQ), (1, cexP)] ∧
      [cexP, cexQ].get? 1 = some cexQ ∧ (0 : Nat) + 1 ≠ 1 + 1) := by
  constructor
  · intro text cits j c h hmem
    obtain ⟨-, hget, -⟩ := spliceRecords_sound (sortCitations cits) text 0 _ hmem
    simpa using hget
  · refine ⟨?_, by decide, by decide⟩
    simp only [spliceRecords, sortCitations_eq_fuel]
    decide

set_option maxRecDepth 10000 in
/-- Witness for C9: applying the general part at the first recorded splice
of the example shows `cexQ` sits at sorted position 0. -/
theorem marker_index_is_sorted_position_witness :
    (sortCitations [cexP, cexQ]).get? 0 = some cexQ :=
  marker_index_is_sorted_position.1 text9 [cexP, cexQ] 0 cexQ
    ((text9.take (7 : Int).toNat).drop (5 : Int).toNat)
    (by
      simp only [spliceRecords, sortCitations_eq_fuel]
      decide)

/-- Claim C10: the serialized body of every request contains an explicit
`sessionId` field; on the first request (initial state, stored session
`null`) the field is serialized as `"sessionId":null` rather than omitted. -/
theorem session_field_always_serialized :
    (∀ p : JStr, serializeRequestBody (mkRequestBody initialClientState p) =
      "\x7b\"prompt\":".data ++ jsonQuote p ++ ",\"sessionId\":null\x7d".data) ∧
    (∀ b : RequestBody, ∃ v, v ≠ [] ∧ serializeRequestBody b =
      "\x7b\"prompt\":".data ++ jsonQuote b.prompt ++ ",\"sessionId\":".data ++
        (v ++ "\x7d".data)) := by
  have hlit : ",\"sessionId\":".data ++ ("null".data ++ "\x7d".data) =
      (",\"sessionId\":null\x7d".data : JStr) := by decide
  constructor
  · intro p
    simp only [serializeRequestBody, mkRequestBody, initialClientState, List.append_assoc]
    rw [hlit]
  · intro b
    cases hb : b.sessionId with
    | none =>
      refine ⟨"null".data, by decide, ?_⟩
      simp [serializeRequestBody, hb, List.append_assoc]
    | some sess =>
      refine ⟨jsonQuote sess, by simp [jsonQuote], ?_⟩
      simp [serializeRequestBody, hb, List.append_assoc]

end WikiAgent
